import Mathlib

set_option maxHeartbeats 1000000

/-!
Verification development for the Goshala storefront backend (server.js).

The embedding models the review-verification and rating-aggregation
subsystem together with the migration/seed pipeline: the Mongo document
store becomes an explicit `Store` state (Products, Comments, Orders), each
route handler becomes a function from a store to a store plus an HTTP-level
response, and the JavaScript string/number operations used by the handlers
(toLowerCase, trim, includes, Math.round, parseInt) are modelled explicitly.
-/

namespace Goshala

/-- Whitespace characters relevant to String.prototype.trim for this code base. -/
def isWSChar (c : Char) : Bool :=
  c == ' ' || c == '\t' || c == '\n' || c == '\r'

/-- Remove whitespace from both ends of a character list (JS trim). -/
def trimChars (l : List Char) : List Char :=
  ((l.dropWhile isWSChar).reverse.dropWhile isWSChar).reverse

/-- JS String.prototype.trim on Lean strings. -/
def jsTrim (s : String) : String :=
  ⟨trimChars s.data⟩

/-- x.toLowerCase().trim() as applied to reviewer and customer names. -/
def normName (s : String) : List Char :=
  trimChars (s.data.map Char.toLower)

/-- Character-list version of startsWith, used to define substring containment. -/
def startsWithCh : List Char → List Char → Bool
  | _, [] => true
  | [], _ :: _ => false
  | a :: as, b :: bs => a == b && startsWithCh as bs

/-- JS String.prototype.includes: does the first list contain the second as a
contiguous sublist. -/
def containsCh : List Char → List Char → Bool
  | [], need => startsWithCh [] need
  | a :: t, need => startsWithCh (a :: t) need || containsCh t need

/-- A line item of an order (items array element of OrderSchema). -/
structure LineItem where
  id : Int
  name : String
  quantity : Nat
  price : ℚ
deriving DecidableEq, Repr

/-- The denormalized customer record of OrderSchema. -/
structure Customer where
  firstname : String
  lastname : String
  email : String
  phone : String
  address1 : String
  address2 : String
  city : String
  state : String
  zip : String
deriving DecidableEq, Repr

/-- A document of the Orders collection (OrderSchema). -/
structure Order where
  orderId : String
  date : Nat
  user : Customer
  total : ℚ
  items : List LineItem
deriving DecidableEq, Repr

/-- A document of the Products collection (ProductSchema). `mongoId` stands for
the store-assigned ObjectId. -/
structure Product where
  mongoId : Nat
  legacyId : Int
  name : String
  dateAdded : Nat
  category : List String
  images : List String
  description : String
  rating : ℚ
  reviewsCount : Int
  sellerTag : String
  price : ℚ
  originalPrice : Option ℚ
  deliveryDate : String
deriving DecidableEq, Repr

/-- A document of the Comments collection (CommentSchema); `productId`
references `Product.mongoId`; `rating` is optional in the schema. -/
structure Comment where
  productId : Nat
  username : String
  comment : String
  rating : Option ℚ
  createdAt : Nat
  verifiedPurchase : Bool
deriving DecidableEq, Repr

/-- The document store: the three collections plus a counter supplying fresh
ObjectIds. -/
structure Store where
  products : List Product
  comments : List Comment
  orders : List Order
  nextId : Nat
deriving DecidableEq, Repr

/-- Mongo query items.id = legacyId on one order: some line item carries the
given legacy product id. -/
def orderHasItem (o : Order) (legacyId : Int) : Bool :=
  o.items.any (fun it => it.id == legacyId)

/-- Customer full name exactly as the handler builds it:
firstname ++ " " ++ lastname (the JS || fallback is the identity here). -/
def fullName (c : Customer) : String :=
  c.firstname ++ " " ++ c.lastname

/-- The purchase-verification check of POST /api/products/:id/reviews, also
used on embedded legacy reviews during migration: find the orders containing
the product's legacy id; if any exist, test whether some such order's
lower-cased trimmed customer full name contains the lower-cased trimmed
reviewer name. -/
def isVerifiedPurchase (orders : List Order) (legacyId : Int) (reviewer : String) : Bool :=
  let ordersWithProduct := orders.filter (fun o => orderHasItem o legacyId)
  if ordersWithProduct.length > 0 then
    let reviewerName := normName reviewer
    ordersWithProduct.any (fun o => containsCh (normName (fullName o.user)) reviewerName)
  else
    false

/-- Math.round: round half toward positive infinity. -/
def jsRound (x : ℚ) : Int :=
  (x + 1/2).floor

/-- parseInt applied to a decimal number: truncation toward zero. -/
def jsTrunc (x : ℚ) : Int :=
  if 0 ≤ x then x.floor else -((-x).floor)

/-- The aggregation pipeline of POST /api/products/:id/reviews: match the
comments by productId, average the rating field over the documents where it is
set (Mongo $avg skips missing values, and Math.round maps the null average of
an all-unrated group to 0), and count every matched document ($sum: 1).
Returns none when no comment matches, in which case the handler leaves the
product untouched. -/
def recomputeStats (comments : List Comment) (pid : Nat) : Option (ℚ × Int) :=
  let matched := comments.filter (fun c => c.productId == pid)
  if matched.isEmpty then none
  else
    let rated := matched.filterMap (fun c => c.rating)
    let avgRounded : Int :=
      if rated.isEmpty then 0 else jsRound (rated.sum / (rated.length : ℚ))
    some ((avgRounded : ℚ), (matched.length : Int))

/-- JS falsiness of an optional string body field (undefined or empty string). -/
def strFalsy : Option String → Bool
  | none => true
  | some s => s.isEmpty

/-- JS falsiness of an optional numeric body field (undefined or zero). -/
def numFalsy : Option ℚ → Bool
  | none => true
  | some x => x == 0

/-- The review validation guard of POST /api/products/:id/reviews:
!user || !rating || !comment || rating < 1 || rating > 5.
Comparisons against an undefined rating are false in JS. -/
def reviewValidationFails (user : Option String) (rating : Option ℚ)
    (commentText : Option String) : Bool :=
  strFalsy user || numFalsy rating || strFalsy commentText ||
    (match rating with
     | none => false
     | some r => decide (r < 1) || decide (r > 5))

/-- Error side of an HTTP response. -/
inductive ApiError where
  | validation
  | notFound
  | serverError
deriving DecidableEq, Repr

/-- HTTP-level response payload. -/
inductive Resp (α : Type) where
  | ok : α → Resp α
  | err : ApiError → Resp α
deriving DecidableEq, Repr

/-- Result of running a handler: the (possibly updated) store plus the
response. -/
structure Outcome (α : Type) where
  store : Store
  response : Resp α
deriving DecidableEq, Repr

/-- Mongoose validation run when a Comment document is saved or bulk-inserted:
username and comment are required (nonempty after the schema trim) and a
rating, when set, lies in [1,5]. -/
def commentSchemaOk (c : Comment) : Bool :=
  !(jsTrim c.username).isEmpty && !(jsTrim c.comment).isEmpty &&
    (match c.rating with
     | none => true
     | some r => decide (1 ≤ r) && decide (r ≤ 5))

/-- POST /api/products/:id/reviews: validate, look the product up by legacyId,
compute verifiedPurchase from the Orders collection, save the comment
(rating stored as parseInt(rating)), rerun the aggregation and, when it
returns a group, save the refreshed rating/reviewsCount onto the product.
The response carries the created comment plus the product's rating and
reviewsCount after the update. -/
def submitReview (s : Store) (legacyId : Int) (user : Option String)
    (rating : Option ℚ) (commentText : Option String) (now : Nat) :
    Outcome (Comment × ℚ × Int) :=
  if reviewValidationFails user rating commentText then
    ⟨s, .err .validation⟩
  else
    match s.products.find? (fun p => p.legacyId == legacyId) with
    | none => ⟨s, .err .notFound⟩
    | some product =>
      let u := user.getD ""
      let isVerified := isVerifiedPurchase s.orders legacyId u
      let newComment : Comment :=
        { productId := product.mongoId
          username := jsTrim u
          comment := jsTrim (commentText.getD "")
          rating := some ((jsTrunc (rating.getD 0) : Int) : ℚ)
          createdAt := now
          verifiedPurchase := isVerified }
      if commentSchemaOk newComment then
        let comments2 := s.comments ++ [newComment]
        match recomputeStats comments2 product.mongoId with
        | some (newRating, newCount) =>
          let product2 := { product with rating := newRating, reviewsCount := newCount }
          ⟨{ s with
              products := s.products.map
                (fun p => if p.mongoId == product.mongoId then product2 else p)
              comments := comments2 },
            .ok (newComment, newRating, newCount)⟩
        | none =>
          ⟨{ s with comments := comments2 },
            .ok (newComment, product.rating, product.reviewsCount)⟩
      else
        ⟨s, .err .serverError⟩

/-- POST /product/:id/comment: requires username and comment, checks that the
product exists (lookup by ObjectId), then saves a comment carrying neither a
rating nor a computed verifiedPurchase flag; the request body's rating field
is never read and no product update is performed. -/
def plainComment (s : Store) (productId : Nat) (username commentText : Option String)
    (_bodyRating : Option ℚ) (now : Nat) : Outcome Comment :=
  if strFalsy username || strFalsy commentText then
    ⟨s, .err .validation⟩
  else if !(s.products.any (fun p => p.mongoId == productId)) then
    ⟨s, .err .notFound⟩
  else
    let newComment : Comment :=
      { productId := productId
        username := jsTrim (username.getD "")
        comment := jsTrim (commentText.getD "")
        rating := none
        createdAt := now
        verifiedPurchase := false }
    if commentSchemaOk newComment then
      ⟨{ s with comments := s.comments ++ [newComment] }, .ok newComment⟩
    else
      ⟨s, .err .serverError⟩

/-- Body of POST /api/products; it is spread into the new document, after which
the handler overwrites legacyId and dateAdded. rating and reviewsCount default
to 0 through the schema when absent from the body. -/
structure ProductBody where
  name : String
  category : List String
  images : List String
  description : String
  sellerTag : String
  price : ℚ
  originalPrice : Option ℚ
  deliveryDate : String
  rating : Option ℚ
  reviewsCount : Option Int
deriving DecidableEq, Repr

/-- findOne().sort(legacyId: -1): a product carrying the maximal legacyId. -/
def maxLegacyProduct : List Product → Option Product
  | [] => none
  | p :: ps =>
    match maxLegacyProduct ps with
    | none => some p
    | some q => if q.legacyId ≤ p.legacyId then some p else some q

/-- findOne().sort(legacyId: 1): a product carrying the minimal legacyId. -/
def minLegacyProduct : List Product → Option Product
  | [] => none
  | p :: ps =>
    match minLegacyProduct ps with
    | none => some p
    | some q => if p.legacyId ≤ q.legacyId then some p else some q

/-- Mongoose validation on Product save: trimmed name of 3 to 150 characters,
price at least 0, trimmed description of at most 2000 characters. -/
def productSchemaOk (p : Product) : Bool :=
  3 ≤ p.name.length && p.name.length ≤ 150 && decide (0 ≤ p.price) &&
    p.description.length ≤ 2000

/-- POST /api/products: newLegacyId = last legacyId + 1 (descending sort), or 1
when no product exists; then build and save the new document. -/
def createProduct (s : Store) (body : ProductBody) (now : Nat) : Outcome Product :=
  let newLegacyId : Int :=
    match maxLegacyProduct s.products with
    | some lastProduct => lastProduct.legacyId + 1
    | none => 1
  let newP : Product :=
    { mongoId := s.nextId
      legacyId := newLegacyId
      name := jsTrim body.name
      dateAdded := now
      category := body.category
      images := body.images
      description := jsTrim body.description
      rating := body.rating.getD 0
      reviewsCount := body.reviewsCount.getD 0
      sellerTag := body.sellerTag
      price := body.price
      originalPrice := body.originalPrice
      deliveryDate := body.deliveryDate }
  if productSchemaOk newP then
    ⟨{ s with products := s.products ++ [newP], nextId := s.nextId + 1 }, .ok newP⟩
  else
    ⟨s, .err .validation⟩

/-- An embedded review of a legacy product record in products.json. -/
structure LegacyReview where
  user : String
  rating : Option ℚ
  comment : String
  createdAt : Option Nat
deriving DecidableEq, Repr

/-- A legacy product record of products.json. -/
structure LegacyProduct where
  id : Int
  name : String
  dateAdded : Option Nat
  category : List String
  images : List String
  description : String
  rating : ℚ
  reviewsCount : Int
  sellerTag : String
  price : ℚ
  originalPrice : Option ℚ
  deliveryDate : String
  reviews : List LegacyReview
deriving DecidableEq, Repr

/-- One iteration of the migration loop: skip when a product with the record's
legacyId exists, otherwise create the product (fields copied verbatim,
dateAdded defaulting to now) and bulk-insert its embedded reviews as comments,
each with verifiedPurchase recomputed against the Orders collection and
createdAt preserved when present. -/
def migrateOne (now : Nat) (st : Store) (p : LegacyProduct) : Store :=
  if st.products.any (fun q => q.legacyId == p.id) then st
  else
    let newP : Product :=
      { mongoId := st.nextId
        legacyId := p.id
        name := jsTrim p.name
        dateAdded := p.dateAdded.getD now
        category := p.category
        images := p.images
        description := jsTrim p.description
        rating := p.rating
        reviewsCount := p.reviewsCount
        sellerTag := p.sellerTag
        price := p.price
        originalPrice := p.originalPrice
        deliveryDate := p.deliveryDate }
    let newComments : List Comment :=
      if p.reviews.length > 0 then
        p.reviews.map (fun rv =>
          { productId := newP.mongoId
            username := jsTrim rv.user
            comment := jsTrim rv.comment
            rating := rv.rating
            createdAt := rv.createdAt.getD now
            verifiedPurchase := isVerifiedPurchase st.orders p.id rv.user })
      else []
    { st with
        products := st.products ++ [newP]
        comments := st.comments ++ newComments
        nextId := st.nextId + 1 }

/-- The product-migration step of migrateAndSeed: runs only when the store
holds fewer products than the legacy list. -/
def migrateStep (legacy : List LegacyProduct) (s : Store) (now : Nat) : Store :=
  if s.products.length < legacy.length then
    legacy.foldl (migrateOne now) s
  else s

/-- First fixed sample comment inserted by seeding. -/
def seedComment1 (pid : Nat) (now : Nat) : Comment :=
  { productId := pid
    username := "Radha"
    comment := "This is the best ghee I have ever tasted! So pure and aromatic."
    rating := some 5
    createdAt := now
    verifiedPurchase := false }

/-- Second fixed sample comment inserted by seeding. -/
def seedComment2 (pid : Nat) (now : Nat) : Comment :=
  { productId := pid
    username := "Krishna"
    comment := "Excellent quality and fast delivery. Highly recommended."
    rating := some 4
    createdAt := now
    verifiedPurchase := false }

/-- The seeding step of migrateAndSeed: only when the Comments collection is
empty, insert the two fixed sample comments for the product with the smallest
legacyId, when one exists. -/
def seedStep (s : Store) (now : Nat) : Store :=
  if s.comments.length == 0 then
    match minLegacyProduct s.products with
    | some productToCommentOn =>
      { s with comments := s.comments ++
          [seedComment1 productToCommentOn.mongoId now,
           seedComment2 productToCommentOn.mongoId now] }
    | none => s
  else s

/-- migrateAndSeed: the product-migration step followed by the seeding step. -/
def migrateAndSeed (legacy : List LegacyProduct) (s : Store) (now : Nat) : Store :=
  seedStep (migrateStep legacy s now) now

/-- startServer's legacy load: on a read failure productsFromJson keeps its
initial value []. -/
def loadLegacy (readResult : Option (List LegacyProduct)) : List LegacyProduct :=
  readResult.getD []

/-- A product's cached rating and reviewsCount agree with a fresh run of the
aggregation over the current Comments collection (vacuously when the
aggregation returns no group, since the handler then writes nothing). -/
def ratingAccurate (s : Store) (p : Product) : Bool :=
  match recomputeStats s.comments p.mongoId with
  | some (r, c) => p.rating == r && p.reviewsCount == c
  | none => true

/-- Every product of the store has accurate cached aggregate fields. -/
def storeConsistent (s : Store) : Bool :=
  s.products.all (fun p => ratingAccurate s p)

/-- All product fields except the two derived aggregate fields agree. -/
def sameExceptDerived (p q : Product) : Bool :=
  p.mongoId == q.mongoId && p.legacyId == q.legacyId && p.name == q.name &&
  p.dateAdded == q.dateAdded && p.category == q.category && p.images == q.images &&
  p.description == q.description && p.sellerTag == q.sellerTag && p.price == q.price &&
  p.originalPrice == q.originalPrice && p.deliveryDate == q.deliveryDate

/-- A sample product document, used for concrete witnesses. -/
def sampleProduct : Product :=
  { mongoId := 0
    legacyId := 1
    name := "Pure Ghee"
    dateAdded := 0
    category := ["dairy"]
    images := []
    description := "Pure cow ghee"
    rating := 0
    reviewsCount := 0
    sellerTag := ""
    price := 10
    originalPrice := none
    deliveryDate := "3 days" }

/-- A store holding one product and nothing else. -/
def cleanStore : Store :=
  { products := [sampleProduct], comments := [], orders := [], nextId := 1 }

/-- A store holding one product and one unrated comment posted through the
plain-comment endpoint. -/
def plainOnlyStore : Store :=
  { products := [sampleProduct]
    comments := [{ productId := 0, username := "guest", comment := "looks nice"
                   rating := none, createdAt := 1, verifiedPurchase := false }]
    orders := []
    nextId := 1 }

/-- A concrete order used by witnesses: Krishna Das bought product 1. -/
def sampleOrder : Order :=
  { orderId := "ORD-1"
    date := 0
    user := { firstname := "Krishna", lastname := "Das", email := "k@x.com"
              phone := "1", address1 := "a", address2 := "", city := "c"
              state := "s", zip := "z" }
    total := 10
    items := [{ id := 1, name := "Ghee", quantity := 1, price := 10 }] }

/-- A second sample product with a larger legacyId, for seeding witnesses. -/
def sampleProduct2 : Product :=
  { sampleProduct with mongoId := 1, legacyId := 2, name := "A2 Milk" }

/-- A store with two products, no comments, no orders. -/
def twoProductStore : Store :=
  { products := [sampleProduct2, sampleProduct], comments := [], orders := [], nextId := 2 }

/-- The empty store. -/
def emptyStore : Store :=
  { products := [], comments := [], orders := [], nextId := 0 }

/-- A valid admin product-creation body. -/
def sampleBody : ProductBody :=
  { name := "Ghee Jar", category := [], images := [], description := ""
    sellerTag := "", price := 5, originalPrice := none, deliveryDate := ""
    rating := none, reviewsCount := none }

/-- The product the sample body creates on the empty store at time 5. -/
def createdSample : Product :=
  { mongoId := 0, legacyId := 1, name := "Ghee Jar", dateAdded := 5
    category := [], images := [], description := "", rating := 0
    reviewsCount := 0, sellerTag := "", price := 5, originalPrice := none
    deliveryDate := "" }

/-- The comment document built and saved by the review handler after a passed
validation, for the product found by legacyId. -/
def reviewComment (product : Product) (s : Store) (lid : Int) (u : Option String)
    (r : Option ℚ) (ct : Option String) (now : Nat) : Comment :=
  { productId := product.mongoId
    username := jsTrim (u.getD "")
    comment := jsTrim (ct.getD "")
    rating := some ((jsTrunc (r.getD 0) : Int) : ℚ)
    createdAt := now
    verifiedPurchase := isVerifiedPurchase s.orders lid (u.getD "") }

/-- The comment created by the C9 witness review. -/
def sampleReviewComment : Comment :=
  { productId := 0, username := "Radha", comment := "great", rating := some 5
    createdAt := 2, verifiedPurchase := false }

/-- The comments of a store that reference the given product. -/
def matchedComments (s : Store) (pid : Nat) : List Comment :=
  s.comments.filter (fun c => c.productId == pid)

/-- The rating values present among a store's comments for a product. -/
def ratedRatings (s : Store) (pid : Nat) : List ℚ :=
  (matchedComments s pid).filterMap (fun c => c.rating)

/-- A comment carrying only a rating, for concrete aggregation examples. -/
def ratedComment (x : ℚ) : Comment :=
  { productId := 0, username := "u", comment := "t", rating := some x
    createdAt := 0, verifiedPurchase := false }

/-- The comment document built and saved by the plain-comment handler. -/
def plainCommentDoc (pid : Nat) (u ct : Option String) (now : Nat) : Comment :=
  { productId := pid
    username := jsTrim (u.getD "")
    comment := jsTrim (ct.getD "")
    rating := none
    createdAt := now
    verifiedPurchase := false }

/-- The comment created by the C10 witness request. -/
def samplePlainComment : Comment :=
  { productId := 0, username := "guest", comment := "hi", rating := none
    createdAt := 4, verifiedPurchase := false }

/-- A legacy record matching the sample product's legacyId, with no embedded
reviews. -/
def legacyOne : LegacyProduct :=
  { id := 1, name := "Pure Ghee", dateAdded := some 0, category := ["dairy"]
    images := [], description := "Pure cow ghee", rating := 0, reviewsCount := 0
    sellerTag := "", price := 10, originalPrice := none, deliveryDate := "3 days"
    reviews := [] }

theorem startsWithCh_nil (l : List Char) : startsWithCh l [] = true := by
  cases l <;> rfl

theorem containsCh_nil (l : List Char) : containsCh l [] = true := by
  cases l <;> simp [containsCh, startsWithCh_nil]

theorem toLower_of_ws {c : Char} (h : isWSChar c = true) : c.toLower = c := by
  simp only [isWSChar, Bool.or_eq_true, beq_iff_eq] at h
  rcases h with ((rfl | rfl) | rfl) | rfl <;> rfl

theorem dropWhile_ws_eq_nil {l : List Char} (h : ∀ c ∈ l, isWSChar c = true) :
    l.dropWhile isWSChar = [] := by
  induction l with
  | nil => rfl
  | cons a t ih =>
    rw [List.dropWhile_cons_of_pos (h a (List.mem_cons_self a t))]
    exact ih (fun c hc => h c (List.mem_cons_of_mem a hc))

theorem trimChars_eq_nil {l : List Char} (h : ∀ c ∈ l, isWSChar c = true) :
    trimChars l = [] := by
  unfold trimChars
  rw [dropWhile_ws_eq_nil h]
  rfl

theorem normName_eq_nil {s : String} (h : ∀ c ∈ s.data, isWSChar c = true) :
    normName s = [] := by
  unfold normName
  refine trimChars_eq_nil (fun c hc => ?_)
  rcases List.mem_map.1 hc with ⟨d, hd, rfl⟩
  rw [toLower_of_ws (h d hd)]
  exact h d hd

theorem isVerifiedPurchase_eq_any (orders : List Order) (L : Int) (R : String) :
    isVerifiedPurchase orders L R =
      (orders.filter (fun o => orderHasItem o L)).any
        (fun o => containsCh (normName (fullName o.user)) (normName R)) := by
  simp only [isVerifiedPurchase]
  cases hf : orders.filter (fun o => orderHasItem o L) with
  | nil => simp
  | cons a t => simp

/-- C2: the purchase-verification check returns true iff some order contains a
line item carrying the product's legacy id and that order's lowercased trimmed
customer full name contains the lowercased trimmed reviewer name as a
substring; it is false when no order contains the id, and an all-whitespace
reviewer name verifies against any order containing the id. -/
theorem purchase_verification_spec (orders : List Order) (L : Int) (R : String) :
    (isVerifiedPurchase orders L R = true ↔
      ∃ o, o ∈ orders ∧ orderHasItem o L = true ∧
        containsCh (normName (fullName o.user)) (normName R) = true)
    ∧ ((∀ o, o ∈ orders → orderHasItem o L = false) →
        isVerifiedPurchase orders L R = false)
    ∧ ((∀ c, c ∈ R.data → isWSChar c = true) →
        (∃ o, o ∈ orders ∧ orderHasItem o L = true) →
        isVerifiedPurchase orders L R = true) := by
  refine ⟨?_, ?_, ?_⟩
  · rw [isVerifiedPurchase_eq_any, List.any_eq_true]
    constructor
    · rintro ⟨o, ho, hc⟩
      rw [List.mem_filter] at ho
      exact ⟨o, ho.1, ho.2, hc⟩
    · rintro ⟨o, ho, hi, hc⟩
      exact ⟨o, List.mem_filter.2 ⟨ho, hi⟩, hc⟩
  · intro h
    rw [isVerifiedPurchase_eq_any]
    have hnil : orders.filter (fun o => orderHasItem o L) = [] :=
      List.filter_eq_nil_iff.2 (fun o ho => by simp [h o ho])
    rw [hnil]
    rfl
  · rintro hws ⟨o, ho, hi⟩
    rw [isVerifiedPurchase_eq_any, List.any_eq_true]
    refine ⟨o, List.mem_filter.2 ⟨ho, hi⟩, ?_⟩
    rw [normName_eq_nil hws]
    exact containsCh_nil _

/-- C2 witness: with Krishna Das's order for product 1 on file, the partial
reviewer name "krishna" and the all-whitespace reviewer name both verify. -/
theorem purchase_verification_spec_witness :
    isVerifiedPurchase [sampleOrder] 1 "krishna" = true ∧
    isVerifiedPurchase [sampleOrder] 1 "  " = true := by
  constructor
  · exact (purchase_verification_spec [sampleOrder] 1 "krishna").1.2
      ⟨sampleOrder, List.mem_cons_self _ _, by decide, by decide⟩
  · exact (purchase_verification_spec [sampleOrder] 1 "  ").2.2
      (by decide) ⟨sampleOrder, List.mem_cons_self _ _, by decide⟩

theorem minLegacyProduct_spec (l : List Product) :
    (minLegacyProduct l = none → l = []) ∧
    (∀ p, minLegacyProduct l = some p → p ∈ l ∧ ∀ q ∈ l, p.legacyId ≤ q.legacyId) := by
  induction l with
  | nil =>
    exact ⟨fun _ => rfl, fun p hp => by simp [minLegacyProduct] at hp⟩
  | cons a t ih =>
    constructor
    · intro h
      exfalso
      simp only [minLegacyProduct] at h
      cases hmin : minLegacyProduct t with
      | none => rw [hmin] at h; exact Option.noConfusion h
      | some m => simp only [hmin] at h; split at h <;> simp at h
    · intro p hp
      simp only [minLegacyProduct] at hp
      cases hmin : minLegacyProduct t with
      | none =>
        simp only [hmin, Option.some.injEq] at hp
        have ht : t = [] := ih.1 hmin
        subst hp
        subst ht
        refine ⟨List.mem_cons_self _ _, ?_⟩
        intro q hq
        rcases List.mem_cons.1 hq with h1 | h2
        · rw [h1]
        · exact absurd h2 (List.not_mem_nil q)
      | some m =>
        simp only [hmin] at hp
        obtain ⟨hmem, hle⟩ := ih.2 m hmin
        split at hp <;> rename_i hc <;>
          simp only [Option.some.injEq] at hp <;> subst hp
        · refine ⟨List.mem_cons_self _ _, ?_⟩
          intro q hq
          rcases List.mem_cons.1 hq with h1 | h2
          · rw [h1]
          · exact le_trans hc (hle q h2)
        · refine ⟨List.mem_cons_of_mem _ hmem, ?_⟩
          intro q hq
          rcases List.mem_cons.1 hq with h1 | h2
          · rw [h1]; exact le_of_not_le hc
          · exact hle q h2

theorem maxLegacyProduct_spec (l : List Product) :
    (maxLegacyProduct l = none → l = []) ∧
    (∀ p, maxLegacyProduct l = some p → p ∈ l ∧ ∀ q ∈ l, q.legacyId ≤ p.legacyId) := by
  induction l with
  | nil =>
    exact ⟨fun _ => rfl, fun p hp => by simp [maxLegacyProduct] at hp⟩
  | cons a t ih =>
    constructor
    · intro h
      exfalso
      simp only [maxLegacyProduct] at h
      cases hmax : maxLegacyProduct t with
      | none => rw [hmax] at h; exact Option.noConfusion h
      | some m => simp only [hmax] at h; split at h <;> simp at h
    · intro p hp
      simp only [maxLegacyProduct] at hp
      cases hmax : maxLegacyProduct t with
      | none =>
        simp only [hmax, Option.some.injEq] at hp
        have ht : t = [] := ih.1 hmax
        subst hp
        subst ht
        refine ⟨List.mem_cons_self _ _, ?_⟩
        intro q hq
        rcases List.mem_cons.1 hq with h1 | h2
        · rw [h1]
        · exact absurd h2 (List.not_mem_nil q)
      | some m =>
        simp only [hmax] at hp
        obtain ⟨hmem, hle⟩ := ih.2 m hmax
        split at hp <;> rename_i hc <;>
          simp only [Option.some.injEq] at hp <;> subst hp
        · refine ⟨List.mem_cons_self _ _, ?_⟩
          intro q hq
          rcases List.mem_cons.1 hq with h1 | h2
          · rw [h1]
          · exact le_trans (hle q h2) hc
        · refine ⟨List.mem_cons_of_mem _ hmem, ?_⟩
          intro q hq
          rcases List.mem_cons.1 hq with h1 | h2
          · rw [h1]; exact le_of_not_le hc
          · exact hle q h2

theorem seedStep_products (s : Store) (now : Nat) :
    (seedStep s now).products = s.products := by
  unfold seedStep
  split
  · cases hm : minLegacyProduct s.products <;> simp [hm]
  · rfl

theorem seedStep_orders (s : Store) (now : Nat) :
    (seedStep s now).orders = s.orders := by
  unfold seedStep
  split
  · cases hm : minLegacyProduct s.products <;> simp [hm]
  · rfl

/-- C5: seeding inserts exactly the two fixed sample comments (ratings 5 and
4), both referencing the product with the minimal legacyId, precisely when the
Comments collection is empty and a product exists; with a non-empty Comments
collection it performs no writes at all, and with no Product it performs no
writes either, so comments are inserted if and only if the Comments collection
is empty and at least one Product exists. -/
theorem seeding_spec (s : Store) (now : Nat) :
    (s.comments = [] → s.products ≠ [] →
      ∃ pm, pm ∈ s.products ∧ (∀ q ∈ s.products, pm.legacyId ≤ q.legacyId) ∧
        (seedStep s now).comments =
          [seedComment1 pm.mongoId now, seedComment2 pm.mongoId now] ∧
        (seedStep s now).products = s.products ∧
        (seedStep s now).orders = s.orders)
    ∧ (s.comments ≠ [] → seedStep s now = s)
    ∧ (s.products = [] → seedStep s now = s) := by
  refine ⟨?_, ?_, ?_⟩
  · intro hc hp
    have hne : minLegacyProduct s.products ≠ none := by
      intro h
      exact hp ((minLegacyProduct_spec s.products).1 h)
    cases hmin : minLegacyProduct s.products with
    | none => exact absurd hmin hne
    | some pm =>
      obtain ⟨hmem, hle⟩ := (minLegacyProduct_spec s.products).2 pm hmin
      refine ⟨pm, hmem, hle, ?_, seedStep_products s now, seedStep_orders s now⟩
      unfold seedStep
      rw [hc, hmin]
      rfl
  · intro hc
    have h0 : ¬ ((s.comments.length == 0) = true) := by
      simp only [beq_iff_eq, List.length_eq_zero]
      exact hc
    unfold seedStep
    rw [if_neg h0]
  · intro hp
    unfold seedStep
    split
    · rw [hp]
      rfl
    · rfl

/-- C5 witness: seeding the two-product store inserts exactly two comments,
and seeding the product-free empty store writes nothing. -/
theorem seeding_spec_witness :
    (seedStep twoProductStore 5).comments.length = 2
    ∧ seedStep emptyStore 6 = emptyStore := by
  constructor
  · obtain ⟨pm, hmem, hle, hcom, hprod, hord⟩ :=
      (seeding_spec twoProductStore 5).1 rfl (by decide)
    rw [hcom]
    rfl
  · exact (seeding_spec emptyStore 6).2.2 rfl

/-- C7: the created product's legacyId is 1 on an empty store, and otherwise
the maximal existing legacyId plus 1; in particular it strictly exceeds every
existing legacyId, so sequential creations from an empty store assign strictly
increasing ids starting at 1. -/
theorem legacy_id_assignment (s : Store) (b : ProductBody) (now : Nat) (p : Product)
    (h : (createProduct s b now).response = .ok p) :
    (s.products = [] → p.legacyId = 1)
    ∧ (∀ q, maxLegacyProduct s.products = some q → p.legacyId = q.legacyId + 1)
    ∧ (∀ q ∈ s.products, q.legacyId < p.legacyId) := by
  unfold createProduct at h
  cases hmax : maxLegacyProduct s.products with
  | none =>
    simp only [hmax] at h
    split at h
    · simp only [Resp.ok.injEq] at h
      subst h
      refine ⟨fun _ => rfl, ?_, ?_⟩
      · intro q hq
        exact Option.noConfusion hq
      · intro q hq
        rw [(maxLegacyProduct_spec s.products).1 hmax] at hq
        cases hq
    · cases h
  | some m =>
    simp only [hmax] at h
    obtain ⟨hmem, hle⟩ := (maxLegacyProduct_spec s.products).2 m hmax
    split at h
    · simp only [Resp.ok.injEq] at h
      subst h
      refine ⟨?_, ?_, ?_⟩
      · intro hp
        rw [hp] at hmem
        cases hmem
      · intro q hq
        cases hq
        rfl
      · intro q hq
        exact Int.lt_add_one_iff.2 (hle q hq)
    · cases h

/-- C7 witness: creating into the empty store assigns legacyId 1. -/
theorem legacy_id_assignment_witness : createdSample.legacyId = 1 :=
  (legacy_id_assignment emptyStore sampleBody 5 createdSample
    (by with_unfolding_all decide)).1 rfl

theorem migrateStep_nil (s : Store) (now : Nat) : migrateStep [] s now = s := by
  unfold migrateStep
  rw [if_neg]
  intro h
  exact Nat.not_lt_zero _ h

/-- C8: when the legacy product file cannot be read, the legacy list stays
empty, the migration step is the identity on the store (no products created,
no comments migrated), and the whole pipeline degenerates to the seeding step;
in particular the Products collection is untouched. -/
theorem legacy_read_failure_noop (s : Store) (now : Nat) :
    migrateStep (loadLegacy none) s now = s
    ∧ migrateAndSeed (loadLegacy none) s now = seedStep s now
    ∧ (migrateAndSeed (loadLegacy none) s now).products = s.products := by
  have h0 : loadLegacy none = [] := rfl
  refine ⟨migrateStep_nil s now, ?_, ?_⟩
  · unfold migrateAndSeed
    rw [h0, migrateStep_nil]
  · unfold migrateAndSeed
    rw [h0, migrateStep_nil, seedStep_products]

theorem recomputeStats_ne_none {comments : List Comment} {pid : Nat} {c : Comment}
    (hc : c ∈ comments) (hpid : c.productId = pid) :
    recomputeStats comments pid ≠ none := by
  intro h
  simp only [recomputeStats] at h
  split at h
  · rename_i hemp
    rw [List.isEmpty_iff] at hemp
    have hmem : c ∈ comments.filter (fun x => x.productId == pid) :=
      List.mem_filter.2 ⟨hc, by simp [hpid]⟩
    rw [hemp] at hmem
    exact absurd hmem (List.not_mem_nil c)
  · exact Option.noConfusion h

/-- Characterization of every successful run of the review endpoint: the
product was found by legacyId, the created comment is the one built by the
handler, the aggregation over the post-insert comment set produced the
returned rating and count, and the final outcome appends the comment and
rewrites the product. -/
theorem submitReview_ok (s : Store) (lid : Int) (u : Option String) (r : Option ℚ)
    (ct : Option String) (now : Nat) (cm : Comment) (nr : ℚ) (nc : Int)
    (h : (submitReview s lid u r ct now).response = .ok (cm, nr, nc)) :
    ∃ product, s.products.find? (fun p => p.legacyId == lid) = some product ∧
      cm = reviewComment product s lid u r ct now ∧
      recomputeStats (s.comments ++ [cm]) product.mongoId = some (nr, nc) ∧
      submitReview s lid u r ct now =
        ⟨{ s with
            products := s.products.map
              (fun p => if p.mongoId == product.mongoId then
                { product with rating := nr, reviewsCount := nc } else p)
            comments := s.comments ++ [cm] },
          .ok (cm, nr, nc)⟩ := by
  unfold submitReview at h
  split at h
  · simp at h
  · rename_i hval
    cases hfind : s.products.find? (fun p => p.legacyId == lid) with
    | none => rw [hfind] at h; simp at h
    | some product =>
      rw [hfind] at h
      simp only at h
      split at h
      · rename_i hschema
        split at h
        · rename_i newRating newCount heq
          simp only [Resp.ok.injEq, Prod.mk.injEq] at h
          obtain ⟨hcm, hnr, hnc⟩ := h
          subst hcm
          subst hnr
          subst hnc
          refine ⟨product, rfl, rfl, heq, ?_⟩
          unfold submitReview
          rw [if_neg hval, hfind]
          simp [hschema, heq]
        · rename_i heq
          exfalso
          have hmem : reviewComment product s lid u r ct now ∈
              s.comments ++ [reviewComment product s lid u r ct now] :=
            List.mem_append.2 (Or.inr (List.mem_singleton.2 rfl))
          exact recomputeStats_ne_none hmem rfl heq
      · simp at h

/-- C9: a successful review submission leaves Orders untouched, appends
exactly the one new Comment, keeps the number of Products, keeps every
product whose id differs from the reviewed one, and changes the reviewed
product only in its rating and reviewsCount fields. -/
theorem review_frame (s : Store) (lid : Int) (u : Option String) (r : Option ℚ)
    (ct : Option String) (now : Nat) (cm : Comment) (nr : ℚ) (nc : Int)
    (h : (submitReview s lid u r ct now).response = .ok (cm, nr, nc)) :
    (submitReview s lid u r ct now).store.orders = s.orders
    ∧ (submitReview s lid u r ct now).store.comments = s.comments ++ [cm]
    ∧ (submitReview s lid u r ct now).store.products.length = s.products.length
    ∧ (∀ p, p ∈ s.products → (p.mongoId == cm.productId) = false →
        p ∈ (submitReview s lid u r ct now).store.products)
    ∧ (∃ p0, p0 ∈ s.products ∧ p0.mongoId = cm.productId ∧
        ∃ tp, tp ∈ (submitReview s lid u r ct now).store.products ∧
          sameExceptDerived p0 tp = true) := by
  obtain ⟨product, hfind, hcm, hstats, hrun⟩ := submitReview_ok s lid u r ct now cm nr nc h
  have hpid : cm.productId = product.mongoId := by rw [hcm]; rfl
  refine ⟨by rw [hrun], by rw [hrun], ?_, ?_, ?_⟩
  · rw [hrun]
    exact List.length_map s.products _
  · intro p hp hne
    rw [hrun]
    refine List.mem_map.2 ⟨p, hp, ?_⟩
    rw [hpid] at hne
    simp [hne]
  · refine ⟨product, List.mem_of_find?_eq_some hfind, hpid.symm, ?_⟩
    refine ⟨{ product with rating := nr, reviewsCount := nc }, ?_, ?_⟩
    · rw [hrun]
      exact List.mem_map.2 ⟨product, List.mem_of_find?_eq_some hfind, by simp⟩
    · simp [sameExceptDerived]

/-- C9 witness: a concrete successful review on the one-product store appends
exactly the created comment. -/
theorem review_frame_witness :
    (submitReview cleanStore 1 (some "Radha") (some 5) (some "great") 2).store.comments =
      cleanStore.comments ++ [sampleReviewComment] :=
  (review_frame cleanStore 1 (some "Radha") (some 5) (some "great") 2
    sampleReviewComment 5 1 (by with_unfolding_all decide)).2.1

theorem recomputeStats_congr {c1 c2 : List Comment} {pid : Nat}
    (h : c1.filter (fun c => c.productId == pid) = c2.filter (fun c => c.productId == pid)) :
    recomputeStats c1 pid = recomputeStats c2 pid := by
  unfold recomputeStats
  rw [h]

/-- C4 amended: review intake does maintain the cached-aggregate invariant: a
successful review submission on a store whose products all carry accurate
rating/reviewsCount caches (and whose product ids are distinct, as Mongo
guarantees for _id) yields a store whose products are again all accurate. The
original claim fails for the other comment-inserting operations, which write
comments without recomputing (see the counterexample). -/
theorem consistency_amended (s : Store) (lid : Int) (u : Option String) (r : Option ℚ)
    (ct : Option String) (now : Nat) (cm : Comment) (nr : ℚ) (nc : Int)
    (h : (submitReview s lid u r ct now).response = .ok (cm, nr, nc))
    (hids : (s.products.map (fun p => p.mongoId)).Nodup)
    (hcons : storeConsistent s = true) :
    storeConsistent (submitReview s lid u r ct now).store = true := by
  obtain ⟨product, hfind, hcm, hstats, hrun⟩ := submitReview_ok s lid u r ct now cm nr nc h
  have hmemP : product ∈ s.products := List.mem_of_find?_eq_some hfind
  have hpid : cm.productId = product.mongoId := by rw [hcm]; rfl
  rw [hrun]
  rw [storeConsistent, List.all_eq_true]
  intro p hp
  obtain ⟨q, hq, hfq⟩ := List.mem_map.1 hp
  by_cases hqe : q.mongoId = product.mongoId
  · have hq_eq : q = product :=
      List.inj_on_of_nodup_map hids hq hmemP hqe
    subst hq_eq
    rw [if_pos (by simp [hqe])] at hfq
    subst hfq
    rw [ratingAccurate]
    simp only
    rw [hstats]
    simp
  · rw [if_neg (by simp [hqe])] at hfq
    subst hfq
    have hfilter : (s.comments ++ [cm]).filter (fun c => c.productId == q.mongoId) =
        s.comments.filter (fun c => c.productId == q.mongoId) := by
      rw [List.filter_append]
      have hsingle : [cm].filter (fun c => c.productId == q.mongoId) = [] := by
        have : (cm.productId == q.mongoId) = false := by
          rw [hpid]
          simp
          intro hcon
          exact hqe hcon.symm
        simp [List.filter, this]
      rw [hsingle, List.append_nil]
    have hacc : ratingAccurate s q = true :=
      (List.all_eq_true.1 hcons) q hq
    rw [ratingAccurate] at hacc ⊢
    simp only at hacc ⊢
    rw [recomputeStats_congr hfilter]
    exact hacc

/-- C4 witness: a concrete consistent one-product store stays consistent
through a successful review submission. -/
theorem consistency_amended_witness :
    storeConsistent (submitReview cleanStore 1 (some "Radha") (some 5)
      (some "great") 2).store = true :=
  consistency_amended cleanStore 1 (some "Radha") (some 5) (some "great") 2
    sampleReviewComment 5 1 (by with_unfolding_all decide)
    (by decide) (by with_unfolding_all decide)

/-- C4 counterexample: the secondary plain-comment endpoint inserts a comment
without recomputing the product's cached fields: starting from a consistent
store, one plain comment leaves the product's reviewsCount at 0 while a fresh
aggregation over its comment set now counts 1, so the claimed invariant does
not hold after every comment-inserting operation. -/
theorem consistency_counterexample :
    storeConsistent cleanStore = true
    ∧ (plainComment cleanStore 0 (some "guest") (some "hello") none 4).response =
        .ok { productId := 0, username := "guest", comment := "hello", rating := none
              createdAt := 4, verifiedPurchase := false }
    ∧ storeConsistent (plainComment cleanStore 0 (some "guest") (some "hello") none 4).store
        = false
    ∧ recomputeStats (plainComment cleanStore 0 (some "guest") (some "hello") none 4).store.comments
        sampleProduct.mongoId = some (0, 1)
    ∧ sampleProduct.reviewsCount = 0 := by
  refine ⟨by with_unfolding_all decide, by with_unfolding_all decide,
    by with_unfolding_all decide, by with_unfolding_all decide, by decide⟩

/-- C1 amended: after a successful review submission the returned reviewsCount
is the number of ALL comments referencing the product, rated or not (the
aggregation counts with sum 1 over every matched document), while the returned
rating is the round-half-up of the mean over the rated ones only (at least one
rated comment exists: the new review itself). The spec's numeric examples
hold: ratings [5,4,4] give 4 and [5,5,4,4] give 5. -/
theorem rating_aggregation_amended (s : Store) (lid : Int) (u : Option String)
    (r : Option ℚ) (ct : Option String) (now : Nat) (cm : Comment) (nr : ℚ) (nc : Int)
    (h : (submitReview s lid u r ct now).response = .ok (cm, nr, nc)) :
    nc = ((matchedComments (submitReview s lid u r ct now).store cm.productId).length : Int)
    ∧ ratedRatings (submitReview s lid u r ct now).store cm.productId ≠ []
    ∧ nr = ((jsRound ((ratedRatings (submitReview s lid u r ct now).store cm.productId).sum /
        ((ratedRatings (submitReview s lid u r ct now).store cm.productId).length : ℚ)) : Int) : ℚ)
    ∧ recomputeStats [ratedComment 5, ratedComment 4, ratedComment 4] 0 = some (4, 3)
    ∧ recomputeStats [ratedComment 5, ratedComment 5, ratedComment 4, ratedComment 4] 0 =
        some (5, 4) := by
  obtain ⟨product, hfind, hcm, hstats, hrun⟩ := submitReview_ok s lid u r ct now cm nr nc h
  have hpid : cm.productId = product.mongoId := by rw [hcm]; rfl
  have hmatched : matchedComments (submitReview s lid u r ct now).store cm.productId =
      (s.comments ++ [cm]).filter (fun c => c.productId == product.mongoId) := by
    rw [matchedComments, hrun, hpid]
  have hcm_mem : cm ∈ (s.comments ++ [cm]).filter (fun c => c.productId == product.mongoId) :=
    List.mem_filter.2 ⟨List.mem_append.2 (Or.inr (List.mem_singleton.2 rfl)), by simp [hpid]⟩
  have hcmr : cm.rating = some ((jsTrunc (r.getD 0) : Int) : ℚ) := by rw [hcm]; rfl
  have hv_mem : ((jsTrunc (r.getD 0) : Int) : ℚ) ∈
      ((s.comments ++ [cm]).filter (fun c => c.productId == product.mongoId)).filterMap
        (fun c => c.rating) :=
    List.mem_filterMap.2 ⟨cm, hcm_mem, hcmr⟩
  have hratedne : ((s.comments ++ [cm]).filter
      (fun c => c.productId == product.mongoId)).filterMap (fun c => c.rating) ≠ [] :=
    List.ne_nil_of_mem hv_mem
  rw [recomputeStats] at hstats
  simp only at hstats
  split at hstats
  · rename_i hemp
    rw [List.isEmpty_iff] at hemp
    rw [hemp] at hcm_mem
    exact absurd hcm_mem (List.not_mem_nil cm)
  · simp only [Option.some.injEq, Prod.mk.injEq] at hstats
    obtain ⟨h1, h2⟩ := hstats
    rw [if_neg (fun hh => hratedne (List.isEmpty_iff.1 hh))] at h1
    refine ⟨?_, ?_, ?_, ?_, ?_⟩
    · rw [hmatched]
      exact h2.symm
    · rw [ratedRatings, hmatched]
      exact hratedne
    · rw [ratedRatings, hmatched]
      exact h1.symm
    · with_unfolding_all decide
    · with_unfolding_all decide

/-- C1 witness: the review on the clean store ends with reviewsCount 1 and the
spec's aggregation examples evaluate as stated. -/
theorem rating_aggregation_amended_witness :
    (1 : Int) = ((matchedComments (submitReview cleanStore 1 (some "Radha") (some 5)
      (some "great") 2).store sampleReviewComment.productId).length : Int) :=
  (rating_aggregation_amended cleanStore 1 (some "Radha") (some 5) (some "great") 2
    sampleReviewComment 5 1 (by with_unfolding_all decide)).1

/-- C1 counterexample: on a product holding one unrated comment, a new 5-star
review returns reviewsCount 2 while only 1 rated comment references the
product, so the count is not the number of rated comments. -/
theorem rating_aggregation_counterexample :
    (submitReview plainOnlyStore 1 (some "Radha") (some 5) (some "great") 2).response =
      .ok ({ productId := 0, username := "Radha", comment := "great", rating := some 5
             createdAt := 2, verifiedPurchase := false }, 5, 2)
    ∧ ((submitReview plainOnlyStore 1 (some "Radha") (some 5) (some "great") 2).store.comments.filter
        (fun c => c.productId == 0 && c.rating.isSome)).length = 1
    ∧ (2 : Int) ≠ (1 : Int) := by
  refine ⟨by with_unfolding_all decide, by with_unfolding_all decide, by decide⟩

theorem strFalsy_iff (u : Option String) :
    strFalsy u = true ↔ u = none ∨ u = some "" := by
  cases u with
  | none => simp [strFalsy]
  | some s => simp [strFalsy, String.isEmpty_iff]

theorem numFalsy_iff (r : Option ℚ) :
    numFalsy r = true ↔ r = none ∨ r = some 0 := by
  cases r <;> simp [numFalsy]

/-- C3 amended: review validation rejects exactly when the username is missing
or empty, or the comment text is missing or empty, or the rating is missing,
zero, below 1 or above 5 — a NON-INTEGER rating strictly between 1 and 5
passes validation (the handler then truncates it via parseInt when storing).
On every validation failure the handler returns immediately with the store
unchanged: no Comment insert, no Product mutation. -/
theorem review_validation_amended (s : Store) (lid : Int) (u : Option String)
    (r : Option ℚ) (ct : Option String) (now : Nat) :
    (reviewValidationFails u r ct = true ↔
      (u = none ∨ u = some "" ∨ ct = none ∨ ct = some "" ∨ r = none ∨ r = some 0 ∨
        (∃ x, r = some x ∧ (x < 1 ∨ 5 < x))))
    ∧ (reviewValidationFails u r ct = true →
        submitReview s lid u r ct now = ⟨s, .err .validation⟩) := by
  constructor
  · unfold reviewValidationFails
    simp only [Bool.or_eq_true, strFalsy_iff, numFalsy_iff]
    cases r with
    | none => simp
    | some x => simp; tauto
  · intro hv
    unfold submitReview
    rw [if_pos hv]

/-- C3 witness: rating 0 is rejected with the store left untouched. -/
theorem review_validation_amended_witness :
    submitReview cleanStore 1 (some "Radha") (some 0) (some "x") 0 =
      ⟨cleanStore, .err .validation⟩ :=
  (review_validation_amended cleanStore 1 (some "Radha") (some 0) (some "x") 0).2
    (by with_unfolding_all decide)

/-- C3 counterexample: the non-integer rating 9/2 lies in [1,5], passes
validation, and the handler inserts a comment (stored rating parseInt = 4)
and updates the product — the claim that every non-integer rating is rejected
with no writes fails. -/
theorem review_validation_counterexample :
    ((9:ℚ)/2).den ≠ 1
    ∧ (1 : ℚ) ≤ (9:ℚ)/2
    ∧ (9:ℚ)/2 ≤ 5
    ∧ reviewValidationFails (some "Radha") (some ((9:ℚ)/2)) (some "fine") = false
    ∧ (submitReview cleanStore 1 (some "Radha") (some ((9:ℚ)/2)) (some "fine") 3).response =
        .ok ({ productId := 0, username := "Radha", comment := "fine", rating := some 4
               createdAt := 3, verifiedPurchase := false }, 4, 1)
    ∧ (submitReview cleanStore 1 (some "Radha") (some ((9:ℚ)/2)) (some "fine") 3).store.comments.length
        = 1 := by
  refine ⟨by with_unfolding_all decide, by with_unfolding_all decide,
    by with_unfolding_all decide, by with_unfolding_all decide,
    by with_unfolding_all decide, by with_unfolding_all decide⟩

/-- C10: every comment created through POST /product/:id/comment is stored
without a rating and with verifiedPurchase false, whatever rating the request
body carries and whatever Orders exist in the store; the endpoint performs no
Product update and no Order update, and appends exactly one comment. -/
theorem plain_comment_spec (s : Store) (pid : Nat) (u ct : Option String)
    (br1 br2 : Option ℚ) (now : Nat) (cm : Comment)
    (h : (plainComment s pid u ct br1 now).response = .ok cm) :
    cm.rating = none
    ∧ cm.verifiedPurchase = false
    ∧ (plainComment s pid u ct br1 now).store.products = s.products
    ∧ (plainComment s pid u ct br1 now).store.orders = s.orders
    ∧ (plainComment s pid u ct br1 now).store.comments = s.comments ++ [cm]
    ∧ plainComment s pid u ct br1 now = plainComment s pid u ct br2 now := by
  have hsame : plainComment s pid u ct br1 now = plainComment s pid u ct br2 now := rfl
  unfold plainComment at h
  split at h
  · simp at h
  · rename_i hval
    split at h
    · simp at h
    · rename_i hfound
      simp only at h
      split at h
      · rename_i hschema
        simp only [Resp.ok.injEq] at h
        subst h
        have hrun : plainComment s pid u ct br1 now =
            ⟨{ s with comments := s.comments ++ [plainCommentDoc pid u ct now] },
              .ok (plainCommentDoc pid u ct now)⟩ := by
          unfold plainComment
          rw [if_neg hval, if_neg hfound, if_pos hschema]
          rfl
        refine ⟨rfl, rfl, by rw [hrun], by rw [hrun], by rw [hrun]; rfl, hsame⟩
      · simp at h

/-- C10 witness: a concrete plain comment is stored unrated and unverified. -/
theorem plain_comment_spec_witness :
    samplePlainComment.rating = none ∧ samplePlainComment.verifiedPurchase = false := by
  obtain ⟨h1, h2, _⟩ := plain_comment_spec cleanStore 0 (some "guest") (some "hi")
    none (some 3) 4 samplePlainComment (by with_unfolding_all decide)
  exact ⟨h1, h2⟩

theorem seedStep_of_ne_nil {s : Store} (now : Nat) (h : s.comments ≠ []) :
    seedStep s now = s := by
  have h0 : ¬ ((s.comments.length == 0) = true) := by
    simp only [beq_iff_eq, List.length_eq_zero]
    exact h
  unfold seedStep
  rw [if_neg h0]

theorem seedStep_of_no_product {s : Store} (now : Nat)
    (h : minLegacyProduct s.products = none) : seedStep s now = s := by
  unfold seedStep
  split
  · rw [h]
  · rfl

theorem seedStep_idem (s : Store) (n1 n2 : Nat) :
    seedStep (seedStep s n1) n2 = seedStep s n1 := by
  by_cases hc : s.comments = []
  · cases hm : minLegacyProduct s.products with
    | none =>
      rw [seedStep_of_no_product n1 hm]
      exact seedStep_of_no_product n2 hm
    | some pm =>
      have h1 : (seedStep s n1).comments ≠ [] := by
        unfold seedStep
        rw [hc, hm]
        simp
      exact seedStep_of_ne_nil n2 h1
  · rw [seedStep_of_ne_nil n1 hc]
    exact seedStep_of_ne_nil n2 hc

theorem migrateOne_preserves_id (now : Nat) (st : Store) (p : LegacyProduct) (i : Int)
    (h : st.products.any (fun q => q.legacyId == i) = true) :
    (migrateOne now st p).products.any (fun q => q.legacyId == i) = true := by
  unfold migrateOne
  split
  · exact h
  · simp only
    rw [List.any_append, h]
    rfl

theorem migrateOne_adds_id (now : Nat) (st : Store) (p : LegacyProduct) :
    (migrateOne now st p).products.any (fun q => q.legacyId == p.id) = true := by
  unfold migrateOne
  split
  · rename_i h
    exact h
  · simp [List.any_append]

theorem foldl_migrate_preserves (legacy : List LegacyProduct) (now : Nat) (st : Store)
    (i : Int) (h : st.products.any (fun q => q.legacyId == i) = true) :
    (legacy.foldl (migrateOne now) st).products.any (fun q => q.legacyId == i) = true := by
  induction legacy generalizing st with
  | nil => exact h
  | cons a t ih =>
    rw [List.foldl_cons]
    exact ih (migrateOne now st a) (migrateOne_preserves_id now st a i h)

theorem foldl_migrate_adds (legacy : List LegacyProduct) (now : Nat) (st : Store) :
    ∀ rec, rec ∈ legacy →
      (legacy.foldl (migrateOne now) st).products.any
        (fun q => q.legacyId == rec.id) = true := by
  induction legacy generalizing st with
  | nil =>
    intro rec hrec
    cases hrec
  | cons a t ih =>
    intro rec hrec
    rw [List.foldl_cons]
    rcases List.mem_cons.1 hrec with h1 | h2
    · subst h1
      exact foldl_migrate_preserves t now (migrateOne now st rec) rec.id
        (migrateOne_adds_id now st rec)
    · exact ih (migrateOne now st a) rec h2

theorem foldl_migrate_id (legacy : List LegacyProduct) (now : Nat) (st : Store)
    (h : ∀ rec, rec ∈ legacy → st.products.any (fun q => q.legacyId == rec.id) = true) :
    legacy.foldl (migrateOne now) st = st := by
  induction legacy with
  | nil => rfl
  | cons a t ih =>
    have ha : migrateOne now st a = st := by
      unfold migrateOne
      rw [if_pos (h a (List.mem_cons_self a t))]
    rw [List.foldl_cons, ha]
    exact ih (fun rec hrec => h rec (List.mem_cons_of_mem a hrec))

theorem migrateStep_of_present (legacy : List LegacyProduct) (s : Store) (now : Nat)
    (h : ∀ rec, rec ∈ legacy → s.products.any (fun q => q.legacyId == rec.id) = true) :
    migrateStep legacy s now = s := by
  unfold migrateStep
  split
  · exact foldl_migrate_id legacy now s h
  · rfl

theorem migrateStep_of_ge (legacy : List LegacyProduct) (t : Store) (now : Nat)
    (h : ¬ t.products.length < legacy.length) : migrateStep legacy t now = t := by
  unfold migrateStep
  rw [if_neg h]

/-- C6 amended: against a store in which every legacy record's legacyId is
already present, re-running the pipeline creates zero new Products, and is a
complete no-op whenever the Comments collection is non-empty or no Product
exists — but when Comments is empty and a Product exists the seeding step
still inserts its two sample comments (see the counterexample). Moreover the
pipeline is idempotent in the run-twice sense: a second run directly after a
first one changes nothing. -/
theorem migration_idempotent_amended (legacy : List LegacyProduct) (s : Store)
    (n1 n2 : Nat) :
    ((∀ rec, rec ∈ legacy → ∃ p, p ∈ s.products ∧ p.legacyId = rec.id) →
      ((migrateAndSeed legacy s n1).products = s.products
        ∧ ((s.comments ≠ [] ∨ s.products = []) → migrateAndSeed legacy s n1 = s)))
    ∧ migrateAndSeed legacy (migrateAndSeed legacy s n1) n2 = migrateAndSeed legacy s n1 := by
  constructor
  · intro hall
    have hpres : ∀ rec, rec ∈ legacy →
        s.products.any (fun q => q.legacyId == rec.id) = true := by
      intro rec hrec
      obtain ⟨p, hp, hpid⟩ := hall rec hrec
      exact List.any_eq_true.2 ⟨p, hp, by simp [hpid]⟩
    have hmig : migrateStep legacy s n1 = s := migrateStep_of_present legacy s n1 hpres
    constructor
    · unfold migrateAndSeed
      rw [hmig, seedStep_products]
    · intro hcase
      unfold migrateAndSeed
      rw [hmig]
      rcases hcase with hne | hempty
      · exact seedStep_of_ne_nil n1 hne
      · refine seedStep_of_no_product n1 ?_
        rw [hempty]
        rfl
  · unfold migrateAndSeed
    have hm2 : migrateStep legacy (seedStep (migrateStep legacy s n1) n1) n2 =
        seedStep (migrateStep legacy s n1) n1 := by
      by_cases hlt : s.products.length < legacy.length
      · have hfold : migrateStep legacy s n1 = legacy.foldl (migrateOne n1) s := by
          unfold migrateStep
          rw [if_pos hlt]
        refine migrateStep_of_present legacy _ n2 ?_
        intro rec hrec
        rw [seedStep_products, hfold]
        exact foldl_migrate_adds legacy n1 s rec hrec
      · have hprod : (seedStep (migrateStep legacy s n1) n1).products = s.products := by
          rw [seedStep_products, migrateStep_of_ge legacy s n1 hlt]
        refine migrateStep_of_ge legacy _ n2 ?_
        rw [hprod]
        exact hlt
    rw [hm2]
    exact seedStep_idem (migrateStep legacy s n1) n1 n2

/-- C6 witness: with the record already migrated and a non-empty Comments
collection, re-running the whole pipeline changes nothing. -/
theorem migration_idempotent_amended_witness :
    migrateAndSeed [legacyOne] plainOnlyStore 7 = plainOnlyStore :=
  ((migration_idempotent_amended [legacyOne] plainOnlyStore 7 8).1
    (by decide)).2 (Or.inl (by decide))

/-- C6 counterexample: all legacy records are migrated (the store's one
product carries legacyId 1) and yet re-running the pipeline inserts two new
Comments, because the Comments collection is empty and seeding fires — so
"zero new Comments on every already-migrated store" fails as stated. -/
theorem migration_idempotence_counterexample :
    [legacyOne].all (fun rec => cleanStore.products.any (fun p => p.legacyId == rec.id)) = true
    ∧ cleanStore.comments = []
    ∧ (migrateAndSeed [legacyOne] cleanStore 9).comments.length = 2
    ∧ (migrateAndSeed [legacyOne] cleanStore 9).products = cleanStore.products := by
  refine ⟨by decide, rfl, by with_unfolding_all decide, by with_unfolding_all decide⟩

end Goshala
